import Mathlib

/-!
Shallow embedding of the typereg registry engine
(src/typereg/utils.py, registry.py, dataclasses.py, pydantic.py).

Python classes are identified by numeric ids. The mutable mapping objects
(plain dicts and NarrowingMapping instances) live in an explicit heap, so the
aliasing of a derived registry over the mapping objects of its ancestors is
modelled faithfully: a write through a child NarrowingMapping mutates the
ancestor mapping objects in place, exactly as in the source. Instances are
represented by their runtime class id (the query functions of utils.py reduce
an instance to its class immediately via extract_class_from_obj_or_cls).
-/

namespace TypeReg

abbrev Addr := Nat
abbrev ClassId := Nat
abbrev Tag := String

/-- Python dict assignment d[k] = v: overwrite in place when the key exists,
append otherwise. -/
def dictInsert {κ ν : Type} [DecidableEq κ] (es : List (κ × ν)) (k : κ) (v : ν) :
    List (κ × ν) :=
  if es.any (fun p => decide (p.1 = k)) then
    es.map (fun p => if p.1 = k then (k, v) else p)
  else es ++ [(k, v)]

/-- Python set.add. The model keeps insertion order; CPython set iteration
order is unspecified, which matters only where noted (the union serializer). -/
def setInsert {κ : Type} [DecidableEq κ] (own : List κ) (k : κ) : List κ :=
  if k ∈ own then own else own ++ [k]

/-- A mapping object of the source: either a plain dict, or a NarrowingMapping
(utils.py lines 118-148) holding its own-key set and a reference (heap
address) to the store it narrows. -/
inductive StoreObj (κ ν : Type) where
  | dict (entries : List (κ × ν))
  | nm (own : List κ) (parent : Addr)
deriving DecidableEq

/-- The heap of mapping objects; an address is an index into the list. -/
structure Heap (κ ν : Type) where
  objs : List (StoreObj κ ν)
deriving DecidableEq

def Heap.get {κ ν : Type} (h : Heap κ ν) (a : Addr) : Option (StoreObj κ ν) :=
  h.objs.get? a

def Heap.set {κ ν : Type} (h : Heap κ ν) (a : Addr) (o : StoreObj κ ν) : Heap κ ν :=
  ⟨h.objs.set a o⟩

def Heap.alloc {κ ν : Type} (h : Heap κ ν) (o : StoreObj κ ν) : Heap κ ν × Addr :=
  (⟨h.objs ++ [o]⟩, h.objs.length)

/-- NarrowingMapping.__contains__ (utils.py lines 144-145): membership consults
only the keys owned by this instance; a plain dict consults its entries. -/
def Heap.containsKey {κ ν : Type} [DecidableEq κ] (h : Heap κ ν) (a : Addr) (k : κ) :
    Bool :=
  match h.get a with
  | some (.dict es) => es.any (fun p => decide (p.1 = k))
  | some (.nm own _) => decide (k ∈ own)
  | none => false

/-- NarrowingMapping.__getitem__ (utils.py lines 125-128): a key is readable
only when it is in the own set, and the value is then fetched from the parent
store; `none` models a KeyError. The fuel bounds the parent chain; in every
heap built by the registry, parents sit at strictly smaller addresses, so
`h.objs.length` is always enough fuel. -/
def Heap.getItem {κ ν : Type} [DecidableEq κ] :
    Nat → Heap κ ν → Addr → κ → Option ν
  | 0, _, _, _ => none
  | Nat.succ fuel, h, a, k =>
    match h.get a with
    | some (.dict es) => (es.find? (fun p => decide (p.1 = k))).map (·.2)
    | some (.nm own parent) =>
        if k ∈ own then Heap.getItem fuel h parent k else none
    | none => none

/-- NarrowingMapping.__setitem__ (utils.py lines 130-135): raise a KeyError
when the key is already in the parent store, otherwise add the key to the own
set and then write through to the parent. The Bool is the success flag; on
failure the returned heap keeps any own-set additions already performed at the
levels below the level that detected the conflict, exactly as the Python
exception aborts the update midway. A plain dict write always succeeds. -/
def Heap.setItem {κ ν : Type} [DecidableEq κ] :
    Nat → Heap κ ν → Addr → κ → ν → Heap κ ν × Bool
  | 0, h, _, _, _ => (h, false)
  | Nat.succ fuel, h, a, k, v =>
    match h.get a with
    | some (.dict es) => (h.set a (.dict (dictInsert es k v)), true)
    | some (.nm own parent) =>
        if h.containsKey parent k then (h, false)
        else Heap.setItem fuel (h.set a (.nm (setInsert own k) parent)) parent k v
    | none => (h, false)

/-- The _NarrowingMapping.__setitem__ of the legacy monolithic module
(src/typereg/typereg.py lines 36-42), which differs from utils.py by allowing
an overwrite with the same value ("Allow overwriting with same value
(idempotent)" in the source). The same-value re-registration proceeds to
re-add the key and rewrite the same value down the chain. -/
def Heap.setItemLegacy {κ ν : Type} [DecidableEq κ] [DecidableEq ν] :
    Nat → Heap κ ν → Addr → κ → ν → Heap κ ν × Bool
  | 0, h, _, _, _ => (h, false)
  | Nat.succ fuel, h, a, k, v =>
    match h.get a with
    | some (.dict es) => (h.set a (.dict (dictInsert es k v)), true)
    | some (.nm own parent) =>
        if h.containsKey parent k ∧ ¬ (Heap.getItem fuel h parent k = some v) then
          (h, false)
        else Heap.setItemLegacy fuel (h.set a (.nm (setInsert own k) parent)) parent k v
    | none => (h, false)

/-- Iteration over a mapping: a dict yields its entry keys,
NarrowingMapping.__iter__ (utils.py lines 141-142) yields the own set. -/
def Heap.iterKeys {κ ν : Type} (h : Heap κ ν) (a : Addr) : List κ :=
  match h.get a with
  | some (.dict es) => es.map (·.1)
  | some (.nm own _) => own
  | none => []

/-- The key-by-key reads performed by dict(mapping): each key yielded by
iteration is read through __getitem__, and a KeyError propagates (`none`). -/
def readKeys {κ ν : Type} [DecidableEq κ] (fuel : Nat) (h : Heap κ ν) (a : Addr) :
    List κ → Option (List (κ × ν))
  | [] => some []
  | k :: rest =>
    match Heap.getItem fuel h a k with
    | none => none
    | some v => (readKeys fuel h a rest).map (fun m => (k, v) :: m)

/-- dict(mapping) over a store: iterate the keys and read each one. -/
def Heap.toMapping {κ ν : Type} [DecidableEq κ] (fuel : Nat) (h : Heap κ ν)
    (a : Addr) : Option (List (κ × ν)) :=
  readKeys fuel h a (h.iterKeys a)

/-- RegistryState (base.py lines 7-10): the two store addresses and the tag
keyword of one registry root. -/
structure RState where
  tagToClass : Addr
  classToTag : Addr
  tagKwarg : String
deriving DecidableEq

/-- The whole mutable state: the heap of tag-to-class mapping objects, the heap
of class-to-tag mapping objects, and REGISTRY_STATE (base.py line 13) as an
association list from class ids to registry states. -/
structure World where
  tagHeap : Heap Tag ClassId
  classHeap : Heap ClassId Tag
  state : List (ClassId × RState)
deriving DecidableEq

def World.findState (w : World) (c : ClassId) : Option RState :=
  (w.state.find? (fun p => decide (p.1 = c))).map (·.2)

def World.inState (w : World) (c : ClassId) : Bool :=
  (w.findState c).isSome

/-- get_registry_root_iter (utils.py lines 10-15), as the list of yielded
classes. Note that cls.__mro__ begins with cls itself, so a class that is in
REGISTRY_STATE is yielded twice. The scenario supplies the mro function. -/
def get_registry_root_list (mro : ClassId → List ClassId) (w : World)
    (c : ClassId) : List ClassId :=
  (if w.inState c then [c] else []) ++ (mro c).filter (fun b => w.inState b)

/-- get_parent_registry_root (utils.py lines 18-29). Because the mro begins
with the class itself, a class that is already a registry root resolves to
itself here: the skip only consumes the extra first yield. -/
def get_parent_registry_root (mro : ClassId → List ClassId) (w : World)
    (c : ClassId) : Option ClassId :=
  if w.inState c then ((get_registry_root_list mro w c).drop 1).head?
  else (get_registry_root_list mro w c).head?

/-- Declaration-time errors raised by Registry.__init_subclass__
(registry.py): rootHasTag is the TypeError for a root given a tag (line 155),
invalidTag the TypeError for an empty tag (line 181), duplicateTag the
KeyError raised by NarrowingMapping.__setitem__ (utils.py line 132). -/
inductive RegErr where
  | rootHasTag
  | invalidTag
  | duplicateTag
deriving DecidableEq

/-- REGISTRY_STATE[cls] = rs: assignment into the (weak) dictionary. -/
def stateSet (s : List (ClassId × RState)) (c : ClassId) (r : RState) :
    List (ClassId × RState) :=
  dictInsert s c r

/-- Registry.__init_subclass__ (registry.py lines 124-192). isRootDecl models
the test `Registry in cls.__bases__`; tag models the popped tag keyword
argument, with `none` for the SENTINEL (absent). The class id c is not yet in
REGISTRY_STATE when this runs, as at class-creation time. Out of the model:
non-string tag values (the claims quantify over strings; emptiness is
checked), and the attachment of the pydantic schema hooks (lines 157-162 and
187-192), which touch no registry state relevant to the claims. On a tag
conflict the KeyError aborts the update exactly where the source does: after
the tag_to_class write failed, class_to_tag is never touched. -/
def init_subclass (mro : ClassId → List ClassId) (kw : String) (w : World)
    (c : ClassId) (isRootDecl : Bool) (tag : Option Tag) :
    World × Option RegErr :=
  let parentRegistry := get_parent_registry_root mro w c
  if isRootDecl then
    match parentRegistry.bind w.findState with
    | some ps =>
      let ta := w.tagHeap.alloc (.nm [] ps.tagToClass)
      let ca := w.classHeap.alloc (.nm [] ps.classToTag)
      let w1 : World := ⟨ta.1, ca.1, stateSet w.state c ⟨ta.2, ca.2, kw⟩⟩
      (w1, if tag.isSome then some .rootHasTag else none)
    | none =>
      let td := w.tagHeap.alloc (.dict [])
      let ta := td.1.alloc (.nm [] td.2)
      let cd := w.classHeap.alloc (.dict [])
      let ca := cd.1.alloc (.nm [] cd.2)
      let w1 : World := ⟨ta.1, ca.1, stateSet w.state c ⟨ta.2, ca.2, kw⟩⟩
      (w1, if tag.isSome then some .rootHasTag else none)
  else
    match parentRegistry with
    | none => (w, none)
    | some pr =>
      match w.findState pr with
      | none => (w, none)
      | some rs =>
        match tag with
        | none => (w, none)
        | some t =>
          if t = "" then (w, some .invalidTag)
          else
            let r1 := Heap.setItem w.tagHeap.objs.length w.tagHeap rs.tagToClass t c
            if r1.2 = false then (⟨r1.1, w.classHeap, w.state⟩, some .duplicateTag)
            else
              let r2 :=
                Heap.setItem w.classHeap.objs.length w.classHeap rs.classToTag c t
              if r2.2 = false then (⟨r1.1, r2.1, w.state⟩, some .duplicateTag)
              else (⟨r1.1, r2.1, w.state⟩, none)

/-- Query-time failures: notInRegistry is the TypeError raised when no registry
root is reachable ("Does not belong to a known registry"), keyError a KeyError
escaping from a mapping lookup. -/
inductive QErr where
  | notInRegistry
  | keyError
deriving DecidableEq

/-- get_tag_to_class_mapping (utils.py lines 59-66): resolve the root, then
return dict(state tag_to_class). The branch where the resolved root is missing
from REGISTRY_STATE cannot occur (the iterator only yields classes that are in
it); it is mapped to the KeyError that Python indexing would raise. -/
def get_tag_to_class_mapping (mro : ClassId → List ClassId) (w : World)
    (c : ClassId) : Except QErr (List (Tag × ClassId)) :=
  match get_parent_registry_root mro w c with
  | none => .error .notInRegistry
  | some root =>
    match w.findState root with
    | none => .error .keyError
    | some rs =>
      match Heap.toMapping w.tagHeap.objs.length w.tagHeap rs.tagToClass with
      | none => .error .keyError
      | some m => .ok m

/-- tags (utils.py lines 69-71): the key set of the mapping copy (returned here
as a list; the claims only use membership). -/
def tags (mro : ClassId → List ClassId) (w : World) (c : ClassId) :
    Except QErr (List Tag) :=
  (get_tag_to_class_mapping mro w c).map (fun m => m.map (·.1))

/-- by_tag (utils.py lines 74-76): index the mapping copy; a missing tag is a
KeyError. -/
def by_tag (mro : ClassId → List ClassId) (w : World) (c : ClassId) (t : Tag) :
    Except QErr ClassId :=
  (get_tag_to_class_mapping mro w c).bind (fun m =>
    match m.find? (fun p => decide (p.1 = t)) with
    | some p => .ok p.2
    | none => .error .keyError)

/-- The item loop of tag_of: items() of the class_to_tag NarrowingMapping reads
each own key through __getitem__ lazily; a KeyError met before a match
propagates. -/
def tag_of_loop (fuel : Nat) (h : Heap ClassId Tag) (a : Addr) (e : ClassId) :
    List ClassId → Except QErr (Option Tag)
  | [] => .ok none
  | o :: rest =>
    match Heap.getItem fuel h a o with
    | none => .error .keyError
    | some tv => if o = e then .ok (some tv) else tag_of_loop fuel h a e rest

/-- tag_of (utils.py lines 79-90): resolve the root, then scan the
class_to_tag items for an identical class; `ok none` is the Python None
returned when the class is not registered. -/
def tag_of (mro : ClassId → List ClassId) (w : World) (c : ClassId)
    (entry : ClassId) : Except QErr (Option Tag) :=
  match get_parent_registry_root mro w c with
  | none => .error .notInRegistry
  | some root =>
    match w.findState root with
    | none => .error .keyError
    | some rs =>
      tag_of_loop w.classHeap.objs.length w.classHeap rs.classToTag entry
        (w.classHeap.iterKeys rs.classToTag)

/-- is_variant (utils.py lines 93-97): class identity against the values of the
tag_to_class mapping copy. -/
def is_variant (mro : ClassId → List ClassId) (w : World) (c : ClassId)
    (entry : ClassId) : Except QErr Bool :=
  (get_tag_to_class_mapping mro w c).map (fun m =>
    m.any (fun p => decide (p.2 = entry)))

/-- get_tag_kwarg (utils.py lines 100-107): unlike every other query function,
a class with no reachable registry root yields the Python value None
(modelled as `ok none`), not a raised error. -/
def get_tag_kwarg (mro : ClassId → List ClassId) (w : World) (c : ClassId) :
    Except QErr (Option String) :=
  match get_parent_registry_root mro w c with
  | none => .ok none
  | some root =>
    match w.findState root with
    | none => .error .keyError
    | some rs => .ok (some rs.tagKwarg)

/-- Python isinstance(value, cls) reduced to classes: cls is among the mro of
the runtime class of value. -/
def isInstanceOf (mro : ClassId → List ClassId) (rc cls : ClassId) : Bool :=
  decide (cls ∈ mro rc)

/-- A serialized field value; only the injected tag string is ever inspected. -/
inductive SVal where
  | str (s : String)
  | raw (n : Nat)
deriving DecidableEq

/-- create_union_serializer (utils.py lines 32-44): scan the (tag, class)
pairs in the iteration order of the tag_to_class mapping and, at the first
pair whose class the value is an instance of, inject the tag into the
serialized field dict; with no match, return the default serialization
unchanged. The mapping iterates a CPython set, whose order is unspecified, so
the model takes the listing as an explicit list. The default per-type
serializer output is modelled as the field dict (the isinstance(serialized,
dict) branch of the source). -/
def union_serializer (mro : ClassId → List ClassId) (m : List (Tag × ClassId))
    (tagKwarg : String) (rc : ClassId) (serialized : List (String × SVal)) :
    List (String × SVal) :=
  match m.find? (fun p => isInstanceOf mro rc p.2) with
  | some p => dictInsert serialized tagKwarg (.str p.1)
  | none => serialized

/-- The annotation recorded for the tag field of a class: absent, exactly str,
or typing.Literal of one string. -/
inductive FieldAnn where
  | absent
  | strAnn
  | literalAnn (s : String)
deriving DecidableEq

/-- The observable tag-field declaration of a class: its annotation and the
class attribute read by getattr (none models the SENTINEL for a missing
attribute). After dataclasses.dataclass processes a field with a default, the
class attribute holds that default value. -/
structure TagFieldInfo where
  ann : FieldAnn
  dflt : Option String
deriving DecidableEq

/-- The tag-field handling of the tagged_dataclass decorator
(dataclasses.py lines 92-120) for an already-registered variant with tag
tagValue: when neither an annotation nor an attribute exists, inject
annotation Literal[tagValue] and a field whose default is tagValue (so the
class attribute becomes tagValue once the dataclass decorator runs);
otherwise raise a TypeError unless the existing annotation is exactly str and
the existing default equals the tag. -/
def tagged_dataclass_tag_field (fi : TagFieldInfo) (tagValue : String) :
    Except Unit TagFieldInfo :=
  match fi.ann, fi.dflt with
  | .absent, none => .ok ⟨.literalAnn tagValue, some tagValue⟩
  | a, d =>
      if a = FieldAnn.strAnn ∧ d = some tagValue then .ok ⟨a, d⟩
      else .error ()

/-! ### List and heap lemmas -/

theorem list_set_of_get {α : Type} :
    ∀ (l : List α) (n : Nat) (x : α), l.get? n = some x → l.set n x = l
  | [], _, _, h => by cases h
  | a :: t, 0, x, h => by
      simp only [List.get?] at h
      cases h
      rfl
  | a :: t, n + 1, x, h => by
      simp only [List.get?] at h
      simpa [List.set] using list_set_of_get t n x h

theorem list_get_set_ne {α : Type} :
    ∀ (l : List α) (a b : Nat) (x : α), b ≠ a → (l.set a x).get? b = l.get? b
  | [], _, _, _, _ => rfl
  | c :: t, 0, 0, x, hne => absurd rfl hne
  | c :: t, 0, b + 1, x, _ => rfl
  | c :: t, a + 1, 0, x, _ => rfl
  | c :: t, a + 1, b + 1, x, hne =>
      list_get_set_ne t a b x (fun e => hne (by rw [e]))

theorem list_get_set_self {α : Type} :
    ∀ (l : List α) (a : Nat) (x y : α), l.get? a = some y →
      (l.set a x).get? a = some x
  | [], _, _, _, h => by cases h
  | c :: t, 0, x, y, _ => rfl
  | c :: t, a + 1, x, y, h => list_get_set_self t a x y h

theorem Heap.get_set_ne {κ ν : Type} (h : Heap κ ν) (a b : Addr)
    (o : StoreObj κ ν) (hne : b ≠ a) : (h.set a o).get b = h.get b :=
  list_get_set_ne h.objs a b o hne

theorem Heap.get_set_self {κ ν : Type} (h : Heap κ ν) (a : Addr)
    (o x : StoreObj κ ν) (hx : h.get a = some x) : (h.set a o).get a = some o :=
  list_get_set_self h.objs a o x hx

theorem Heap.set_of_get_self {κ ν : Type} (h : Heap κ ν) (a : Addr)
    (x : StoreObj κ ν) (hx : h.get a = some x) : h.set a x = h := by
  cases h
  simp only [Heap.set, Heap.mk.injEq]
  exact list_set_of_get _ a x hx

theorem mem_setInsert_self {κ : Type} [DecidableEq κ] (own : List κ) (k : κ) :
    k ∈ setInsert own k := by
  by_cases hk : k ∈ own
  · simp [setInsert, hk]
  · simp [setInsert, hk]

theorem setInsert_of_mem {κ : Type} [DecidableEq κ] (own : List κ) (k : κ)
    (hk : k ∈ own) : setInsert own k = own := by
  simp [setInsert, hk]

theorem mem_setInsert_ne {κ : Type} [DecidableEq κ] (own : List κ) (k k' : κ)
    (hne : k' ≠ k) : (k' ∈ setInsert own k) ↔ k' ∈ own := by
  by_cases hk : k ∈ own
  · simp [setInsert, hk]
  · simp [setInsert, hk, hne]

theorem find?_eq_none_of_not_mem {κ ν : Type} [DecidableEq κ] :
    ∀ (es : List (κ × ν)) (k : κ), k ∉ es.map (fun p => p.1) →
      es.find? (fun p => decide (p.1 = k)) = none
  | [], _, _ => rfl
  | p :: rest, k, hmem => by
      have h1 : ¬ p.1 = k := fun e => hmem (by simp [e])
      have h2 : k ∉ rest.map (fun q => q.1) := fun m => hmem (by simp [m])
      simp [List.find?, h1, find?_eq_none_of_not_mem rest k h2]

theorem any_eq_false_of_not_mem {κ ν : Type} [DecidableEq κ] :
    ∀ (es : List (κ × ν)) (k : κ), k ∉ es.map (fun p => p.1) →
      es.any (fun p => decide (p.1 = k)) = false
  | [], _, _ => rfl
  | p :: rest, k, hmem => by
      have h1 : ¬ p.1 = k := fun e => hmem (by simp [e])
      have h2 : k ∉ rest.map (fun q => q.1) := fun m => hmem (by simp [m])
      simp [List.any, h1, any_eq_false_of_not_mem rest k h2]

theorem find?_isSome_of_mem {κ ν : Type} [DecidableEq κ] :
    ∀ (es : List (κ × ν)) (k : κ), k ∈ es.map (fun p => p.1) →
      (es.find? (fun p => decide (p.1 = k))).isSome = true
  | [], _, h => by cases h
  | p :: rest, k, hmem => by
      by_cases h1 : p.1 = k
      · simp [List.find?, h1]
      · have h2 : k ∈ rest.map (fun q => q.1) := by
          rcases (by simpa using hmem) with h | h
          · exact absurd h.symm h1
          · simpa using h
        simp [List.find?, h1, find?_isSome_of_mem rest k h2]

/-! ### Key views: what a single key sees at each heap object -/

/-- The portion of one heap object that the operations on a fixed key k
observe: absence, the dict answers for k, or the own-set membership of k and
the parent pointer. -/
inductive KeyView (ν : Type) where
  | vnone
  | vdict (value : Option ν) (present : Bool)
  | vnm (owned : Bool) (parent : Addr)
deriving DecidableEq

def keyView {κ ν : Type} [DecidableEq κ] (k : κ) :
    Option (StoreObj κ ν) → KeyView ν
  | none => .vnone
  | some (.dict es) =>
      .vdict ((es.find? (fun p => decide (p.1 = k))).map (fun p => p.2))
        (es.any (fun p => decide (p.1 = k)))
  | some (.nm own p) => .vnm (decide (k ∈ own)) p

/-- Two heaps agree on key k when every address shows k the same view. -/
def heapAgree {κ ν : Type} [DecidableEq κ] (k : κ) (h h2 : Heap κ ν) : Prop :=
  ∀ b, keyView k (h.get b) = keyView k (h2.get b)

theorem heapAgree_refl {κ ν : Type} [DecidableEq κ] (k : κ) (h : Heap κ ν) :
    heapAgree k h h := fun _ => rfl

theorem heapAgree_trans {κ ν : Type} [DecidableEq κ] (k : κ) {h1 h2 h3 : Heap κ ν}
    (g1 : heapAgree k h1 h2) (g2 : heapAgree k h2 h3) : heapAgree k h1 h3 :=
  fun b => (g1 b).trans (g2 b)

theorem containsKey_congr {κ ν : Type} [DecidableEq κ] (k : κ) {h h2 : Heap κ ν}
    (hA : heapAgree k h h2) (a : Addr) :
    h.containsKey a k = h2.containsKey a k := by
  have hv := hA a
  cases hg1 : h.get a with
  | none =>
    cases hg2 : h2.get a with
    | none => simp [Heap.containsKey, hg1, hg2]
    | some o2 =>
      cases o2 <;> rw [hg1, hg2] at hv <;> simp [keyView] at hv
  | some o1 =>
    cases o1 with
    | dict es =>
      cases hg2 : h2.get a with
      | none => rw [hg1, hg2] at hv; simp [keyView] at hv
      | some o2 =>
        cases o2 with
        | dict es2 =>
          rw [hg1, hg2] at hv
          simp only [keyView, KeyView.vdict.injEq] at hv
          simp [Heap.containsKey, hg1, hg2, hv.2]
        | nm own2 p2 => rw [hg1, hg2] at hv; simp [keyView] at hv
    | nm own p =>
      cases hg2 : h2.get a with
      | none => rw [hg1, hg2] at hv; simp [keyView] at hv
      | some o2 =>
        cases o2 with
        | dict es2 => rw [hg1, hg2] at hv; simp [keyView] at hv
        | nm own2 p2 =>
          rw [hg1, hg2] at hv
          simp only [keyView, KeyView.vnm.injEq] at hv
          simp [Heap.containsKey, hg1, hg2, hv.1]

theorem getItem_congr {κ ν : Type} [DecidableEq κ] (k : κ) :
    ∀ (m : Nat) (h h2 : Heap κ ν), heapAgree k h h2 →
      ∀ a, Heap.getItem m h a k = Heap.getItem m h2 a k := by
  intro m
  induction m with
  | zero => intro h h2 _ a; rfl
  | succ m ih =>
    intro h h2 hA a
    have hv := hA a
    cases hg1 : h.get a with
    | none =>
      cases hg2 : h2.get a with
      | none => simp [Heap.getItem, hg1, hg2]
      | some o2 =>
        cases o2 <;> rw [hg1, hg2] at hv <;> simp [keyView] at hv
    | some o1 =>
      cases o1 with
      | dict es =>
        cases hg2 : h2.get a with
        | none => rw [hg1, hg2] at hv; simp [keyView] at hv
        | some o2 =>
          cases o2 with
          | dict es2 =>
            rw [hg1, hg2] at hv
            simp only [keyView, KeyView.vdict.injEq] at hv
            simp [Heap.getItem, hg1, hg2, hv.1]
          | nm own2 p2 => rw [hg1, hg2] at hv; simp [keyView] at hv
      | nm own p =>
        cases hg2 : h2.get a with
        | none => rw [hg1, hg2] at hv; simp [keyView] at hv
        | some o2 =>
          cases o2 with
          | dict es2 => rw [hg1, hg2] at hv; simp [keyView] at hv
          | nm own2 p2 =>
            rw [hg1, hg2] at hv
            simp only [keyView, KeyView.vnm.injEq] at hv
            obtain ⟨hown, hp⟩ := hv
            subst hp
            by_cases hk : k ∈ own
            · have hk2 : k ∈ own2 := by
                have := hown
                simp [hk] at this
                exact this
              simp [Heap.getItem, hg1, hg2, hk, hk2, ih h h2 hA p]
            · have hk2 : k ∉ own2 := by
                intro hm
                have := hown
                simp [hk, hm] at this
              simp [Heap.getItem, hg1, hg2, hk, hk2]

theorem list_find?_append {α : Type} (pred : α → Bool) :
    ∀ (l1 l2 : List α), (l1 ++ l2).find? pred =
      match l1.find? pred with
      | some x => some x
      | none => l2.find? pred
  | [], l2 => rfl
  | a :: t, l2 => by
      by_cases hp : pred a
      · simp [List.find?, hp]
      · simp [List.find?, hp, list_find?_append pred t l2]

theorem find?_map_overwrite {κ ν : Type} [DecidableEq κ] (k k' : κ) (v : ν)
    (hne : k' ≠ k) :
    ∀ es : List (κ × ν),
      (es.map (fun p => if p.1 = k then (k, v) else p)).find?
          (fun p => decide (p.1 = k')) =
        es.find? (fun p => decide (p.1 = k'))
  | [] => rfl
  | p :: rest => by
      simp only [List.map_cons]
      by_cases hp : p.1 = k
      · rw [if_pos hp]
        have hk : ¬ ((k : κ) = k') := fun e => hne e.symm
        have hp' : ¬ p.1 = k' := by rw [hp]; exact hk
        simp only [List.find?]
        rw [show (decide (((k, v) : κ × ν).1 = k')) = false from by simp [hk],
          show (decide (p.1 = k')) = false from by simp [hp']]
        exact find?_map_overwrite k k' v hne rest
      · rw [if_neg hp]
        by_cases hp2 : p.1 = k'
        · simp only [List.find?]
          rw [show (decide (p.1 = k')) = true from by simp [hp2]]
        · simp only [List.find?]
          rw [show (decide (p.1 = k')) = false from by simp [hp2]]
          exact find?_map_overwrite k k' v hne rest

theorem any_map_overwrite {κ ν : Type} [DecidableEq κ] (k k' : κ) (v : ν)
    (hne : k' ≠ k) :
    ∀ es : List (κ × ν),
      (es.map (fun p => if p.1 = k then (k, v) else p)).any
          (fun p => decide (p.1 = k')) =
        es.any (fun p => decide (p.1 = k'))
  | [] => rfl
  | p :: rest => by
      simp only [List.map_cons, List.any_cons]
      by_cases hp : p.1 = k
      · rw [if_pos hp]
        have hk : ¬ ((k : κ) = k') := fun e => hne e.symm
        have hp' : ¬ p.1 = k' := by rw [hp]; exact hk
        rw [show (decide (((k, v) : κ × ν).1 = k')) = false from by simp [hk],
          show (decide (p.1 = k')) = false from by simp [hp']]
        simp [any_map_overwrite k k' v hne rest]
      · rw [if_neg hp]
        simp [any_map_overwrite k k' v hne rest]

theorem keyView_dictInsert_ne {κ ν : Type} [DecidableEq κ] (es : List (κ × ν))
    (k k' : κ) (v : ν) (hne : k' ≠ k) :
    keyView (ν := ν) k' (some (.dict (dictInsert es k v))) =
      keyView k' (some (.dict es)) := by
  unfold dictInsert
  by_cases hmem : es.any (fun p => decide (p.1 = k)) = true
  · rw [if_pos hmem]
    simp only [keyView, KeyView.vdict.injEq]
    exact ⟨by rw [find?_map_overwrite k k' v hne es],
      by rw [any_map_overwrite k k' v hne es]⟩
  · rw [if_neg hmem]
    simp only [keyView, KeyView.vdict.injEq]
    have hk : ¬ ((k : κ) = k') := fun e => hne e.symm
    refine ⟨?_, ?_⟩
    · rw [list_find?_append]
      cases hf : es.find? (fun p => decide (p.1 = k')) with
      | some x => rfl
      | none => simp [List.find?, hk]
    · simp [List.any_append, hk]

theorem setItem_agree {κ ν : Type} [DecidableEq κ] (k k' : κ) (hne : k' ≠ k) :
    ∀ (n : Nat) (h : Heap κ ν) (a : Addr) (v : ν),
      heapAgree k' h (Heap.setItem n h a k v).1 := by
  intro n
  induction n with
  | zero => intro h a v; exact heapAgree_refl _ _
  | succ n ih =>
    intro h a v
    cases hg : h.get a with
    | none =>
      simp only [Heap.setItem, hg]
      exact heapAgree_refl _ _
    | some o =>
      cases o with
      | dict es =>
        simp only [Heap.setItem, hg]
        intro b
        by_cases hb : b = a
        · rw [hb, Heap.get_set_self _ _ _ _ hg, hg]
          exact (keyView_dictInsert_ne es k k' v hne).symm
        · rw [Heap.get_set_ne _ _ _ _ hb]
      | nm own p =>
        by_cases hc : h.containsKey p k = true
        · simp only [Heap.setItem, hg, hc, if_true]
          exact heapAgree_refl _ _
        · simp only [Heap.setItem, hg, hc, if_false, Bool.false_eq_true]
          refine heapAgree_trans k' (fun b => ?_)
            (ih (h.set a (.nm (setInsert own k) p)) p v)
          by_cases hb : b = a
          · rw [hb, Heap.get_set_self _ _ _ _ hg, hg]
            simp [keyView, mem_setInsert_ne own k k' hne]
          · rw [Heap.get_set_ne _ _ _ _ hb]

theorem getItem_none_of_not_own {κ ν : Type} [DecidableEq κ] (h : Heap κ ν)
    (a : Addr) (own : List κ) (p : Addr) (k : κ)
    (hga : h.get a = some (.nm own p)) (hko : k ∉ own) :
    ∀ m, Heap.getItem m h a k = none := by
  intro m
  cases m with
  | zero => rfl
  | succ m => simp [Heap.getItem, hga, hko]

theorem getItem_set_insert {κ ν : Type} [DecidableEq κ] (h : Heap κ ν) (a : Addr)
    (own : List κ) (p : Addr) (k : κ)
    (hga : h.get a = some (.nm own p)) (hcp : h.containsKey p k = false) :
    ∀ (m : Nat) (b : Addr),
      Heap.getItem m (h.set a (.nm (setInsert own k) p)) b k =
        Heap.getItem m h b k := by
  by_cases hko : k ∈ own
  · rw [setInsert_of_mem own k hko, Heap.set_of_get_self h a _ hga]
    intro m b
    rfl
  · intro m
    induction m with
    | zero => intro b; rfl
    | succ m ih =>
      intro b
      by_cases hb : b = a
      · rw [hb]
        have hgb : (h.set a (.nm (setInsert own k) p)).get a =
            some (.nm (setInsert own k) p) := Heap.get_set_self _ _ _ _ hga
        rw [getItem_none_of_not_own h a own p k hga hko (m + 1)]
        have hstep : Heap.getItem (m + 1) (h.set a (.nm (setInsert own k) p)) a k =
            Heap.getItem m (h.set a (.nm (setInsert own k) p)) p k := by
          simp [Heap.getItem, hgb, mem_setInsert_self]
        rw [hstep, ih p]
        cases m with
        | zero => rfl
        | succ m2 =>
          cases hgp : h.get p with
          | none => simp [Heap.getItem, hgp]
          | some o =>
            cases o with
            | dict es =>
              have hcp2 : es.any (fun q => decide (q.1 = k)) = false := by
                have hc := hcp
                simp only [Heap.containsKey, hgp] at hc
                exact hc
              have hfind : es.find? (fun q => decide (q.1 = k)) = none := by
                cases hf : es.find? (fun q => decide (q.1 = k)) with
                | none => rfl
                | some x =>
                  have hx := List.find?_some hf
                  have hmemx := List.mem_of_find?_eq_some hf
                  have hany : es.any (fun q => decide (q.1 = k)) = true :=
                    List.any_eq_true.mpr ⟨x, hmemx, hx⟩
                  rw [hany] at hcp2
                  cases hcp2
              simp [Heap.getItem, hgp, hfind]
            | nm own2 p2 =>
              have hk2 : k ∉ own2 := by
                have hc := hcp
                simp only [Heap.containsKey, hgp] at hc
                intro hm
                simp [hm] at hc
              simp [Heap.getItem, hgp, hk2]
      · rw [Heap.getItem, Heap.getItem, Heap.get_set_ne _ _ _ _ hb]
        cases hgb : h.get b with
        | none => rfl
        | some o =>
          cases o with
          | dict es => rfl
          | nm own2 p2 =>
            by_cases hk2 : k ∈ own2
            · simp [hk2, ih p2]
            · simp [hk2]

theorem setItem_fail_getItem {κ ν : Type} [DecidableEq κ] (k : κ) :
    ∀ (n : Nat) (h : Heap κ ν) (a : Addr) (v : ν),
      (Heap.setItem n h a k v).2 = false →
      ∀ (m : Nat) (b : Addr),
        Heap.getItem m (Heap.setItem n h a k v).1 b k = Heap.getItem m h b k := by
  intro n
  induction n with
  | zero => intro h a v _ m b; rfl
  | succ n ih =>
    intro h a v hfail m b
    cases hg : h.get a with
    | none => simp [Heap.setItem, hg]
    | some o =>
      cases o with
      | dict es =>
        rw [show Heap.setItem (n + 1) h a k v =
            (h.set a (.dict (dictInsert es k v)), true) from by
          simp [Heap.setItem, hg]] at hfail
        cases hfail
      | nm own p =>
        by_cases hc : h.containsKey p k = true
        · simp [Heap.setItem, hg, hc]
        · have hred : Heap.setItem (n + 1) h a k v =
              Heap.setItem n (h.set a (.nm (setInsert own k) p)) p k v := by
            simp [Heap.setItem, hg, hc]
          rw [hred] at hfail ⊢
          rw [ih (h.set a (.nm (setInsert own k) p)) p v hfail m b]
          exact getItem_set_insert h a own p k hg (by simpa using hc) m b

/-! ### Chains of narrowing mappings down to a base dict -/

/-- The parent chain from an address through NarrowingMapping objects down to
the base dict, as produced by the registry: every parent sits at a strictly
smaller heap address (ancestor stores are allocated before descendants). The
path lists the narrowing levels, and es is the base dict content. -/
inductive ChainVia {κ ν : Type} : Heap κ ν → Addr → List Addr → List (κ × ν) → Prop where
  | dict {h : Heap κ ν} {a : Addr} {es : List (κ × ν)} :
      h.get a = some (.dict es) → ChainVia h a [] es
  | nm {h : Heap κ ν} {a : Addr} (own : List κ) (p : Addr) {path : List Addr}
      {es : List (κ × ν)} : h.get a = some (.nm own p) → p < a →
      ChainVia h p path es → ChainVia h a (a :: path) es

theorem chainVia_set_high {κ ν : Type} {h : Heap κ ν} {b : Addr}
    {path : List Addr} {es : List (κ × ν)} (o : StoreObj κ ν)
    (hc : ChainVia h b path es) :
    ∀ a, b < a → ChainVia (h.set a o) b path es := by
  induction hc with
  | dict hg =>
    intro a hba
    exact .dict (by rw [Heap.get_set_ne _ _ _ _ (Nat.ne_of_lt hba)]; exact hg)
  | nm own p hg hpb _ ih =>
    intro a hba
    exact .nm own p
      (by rw [Heap.get_set_ne _ _ _ _ (Nat.ne_of_lt hba)]; exact hg) hpb
      (ih a (Nat.lt_trans hpb hba))

theorem chainVia_cons_head {κ ν : Type} {h : Heap κ ν} {b q : Addr}
    {rest : List Addr} {es : List (κ × ν)} (hc : ChainVia h b (q :: rest) es) :
    q = b := by
  cases hc
  rfl

theorem setItem_fail_of_chain {κ ν : Type} [DecidableEq κ] (k : κ) (v : ν) :
    ∀ (path : List Addr) (h : Heap κ ν) (a : Addr) (es : List (κ × ν)) (n : Nat),
      ChainVia h a (a :: path) es →
      es.any (fun p => decide (p.1 = k)) = true →
      path.length + 1 < n →
      (Heap.setItem n h a k v).2 = false := by
  intro path
  induction path with
  | nil =>
    intro h a es n hc hk hn
    cases hc with
    | nm own p hga hpa hsub =>
      cases hsub with
      | dict hgp =>
        obtain ⟨n', rfl⟩ : ∃ n', n = n' + 1 := ⟨n - 1, by omega⟩
        have hcp : h.containsKey p k = true := by
          rw [Heap.containsKey, hgp]; exact hk
        simp [Heap.setItem, hga, hcp]
  | cons q rest ih =>
    intro h a es n hc hk hn
    cases hc with
    | nm own p hga hpa hsub =>
      obtain ⟨n', rfl⟩ : ∃ n', n = n' + 1 := ⟨n - 1, by omega⟩
      by_cases hcp : h.containsKey p k = true
      · simp [Heap.setItem, hga, hcp]
      · have hred : Heap.setItem (n' + 1) h a k v =
            Heap.setItem n' (h.set a (.nm (setInsert own k) p)) p k v := by
          simp [Heap.setItem, hga, hcp]
        rw [hred]
        have hq : q = p := chainVia_cons_head hsub
        rw [hq] at hsub
        exact ih (h.set a (.nm (setInsert own k) p)) p es n'
          (chainVia_set_high _ hsub a hpa) hk (by simp at hn ⊢; omega)

/-! ### Reading a whole mapping -/

theorem readKeys_some {κ ν : Type} [DecidableEq κ] (fuel : Nat) (h : Heap κ ν)
    (a : Addr) :
    ∀ ks : List κ, (∀ k ∈ ks, (Heap.getItem fuel h a k).isSome = true) →
      ∃ M, readKeys fuel h a ks = some M
  | [], _ => ⟨[], rfl⟩
  | k :: rest, hall => by
      have hk := hall k (by simp)
      obtain ⟨v, hv⟩ : ∃ v, Heap.getItem fuel h a k = some v := by
        cases hg : Heap.getItem fuel h a k with
        | none => rw [hg] at hk; cases hk
        | some v => exact ⟨v, rfl⟩
      obtain ⟨M, hM⟩ := readKeys_some fuel h a rest (fun q hq => hall q (by simp [hq]))
      exact ⟨(k, v) :: M, by simp [readKeys, hv, hM]⟩

theorem readKeys_find {κ ν : Type} [DecidableEq κ] (fuel : Nat) (h : Heap κ ν)
    (a : Addr) (t : κ) :
    ∀ (ks : List κ) (M : List (κ × ν)), readKeys fuel h a ks = some M →
      M.find? (fun q => decide (q.1 = t)) =
        if t ∈ ks then (Heap.getItem fuel h a t).map (fun u => (t, u)) else none
  | [], M, hM => by
      cases hM
      simp
  | k :: rest, M, hM => by
      simp only [readKeys] at hM
      cases hg : Heap.getItem fuel h a k with
      | none => rw [hg] at hM; cases hM
      | some v =>
        rw [hg] at hM
        cases hrest : readKeys fuel h a rest with
        | none => rw [hrest] at hM; cases hM
        | some M2 =>
          rw [hrest] at hM
          simp only [Option.map_some] at hM
          cases hM
          by_cases hkt : k = t
          · subst hkt
            simp [List.find?, hg]
          · have htk : ¬ t = k := fun e => hkt e.symm
            rw [show List.find? (fun q => decide (q.1 = t)) ((k, v) :: M2) =
                List.find? (fun q => decide (q.1 = t)) M2 from by
              simp [List.find?, hkt]]
            rw [readKeys_find fuel h a t rest M2 hrest]
            simp [htk]

theorem readKeys_values {κ ν : Type} [DecidableEq κ] (fuel : Nat) (h : Heap κ ν)
    (a : Addr) (e : ν) [DecidableEq ν] :
    ∀ (ks : List κ) (M : List (κ × ν)), readKeys fuel h a ks = some M →
      (M.any (fun q => decide (q.2 = e)) = true ↔
        ∃ k ∈ ks, Heap.getItem fuel h a k = some e)
  | [], M, hM => by
      cases hM
      simp
  | k :: rest, M, hM => by
      simp only [readKeys] at hM
      cases hg : Heap.getItem fuel h a k with
      | none => rw [hg] at hM; cases hM
      | some v =>
        rw [hg] at hM
        cases hrest : readKeys fuel h a rest with
        | none => rw [hrest] at hM; cases hM
        | some M2 =>
          rw [hrest] at hM
          simp only [Option.map_some] at hM
          cases hM
          constructor
          · intro hany
            rcases List.any_eq_true.mp hany with ⟨q, hqmem, hqe⟩
            have hqe2 : q.2 = e := of_decide_eq_true hqe
            rcases (by simpa using hqmem : q = (k, v) ∨ q ∈ M2) with rfl | hqM2
            · exact ⟨k, by simp, by rw [hg]; exact congrArg some hqe2⟩
            · obtain ⟨k2, hk2, hk2e⟩ :=
                (readKeys_values fuel h a e rest M2 hrest).mp
                  (List.any_eq_true.mpr ⟨q, hqM2, hqe⟩)
              exact ⟨k2, by simp [hk2], hk2e⟩
          · rintro ⟨k2, hk2, hk2e⟩
            rcases (by simpa using hk2 : k2 = k ∨ k2 ∈ rest) with rfl | hk2r
            · rw [hg] at hk2e
              cases hk2e
              simp
            · have := (readKeys_values fuel h a e rest M2 hrest).mpr ⟨k2, hk2r, hk2e⟩
              simpa using Or.inr (List.any_eq_true.mp this)

theorem readKeys_keys {κ ν : Type} [DecidableEq κ] (fuel : Nat) (h : Heap κ ν)
    (a : Addr) :
    ∀ (ks : List κ) (M : List (κ × ν)), readKeys fuel h a ks = some M →
      M.map (fun q => q.1) = ks
  | [], M, hM => by cases hM; rfl
  | k :: rest, M, hM => by
      simp only [readKeys] at hM
      cases hg : Heap.getItem fuel h a k with
      | none => rw [hg] at hM; cases hM
      | some v =>
        rw [hg] at hM
        cases hrest : readKeys fuel h a rest with
        | none => rw [hrest] at hM; cases hM
        | some M2 =>
          rw [hrest] at hM
          simp only [Option.map_some] at hM
          cases hM
          simp [readKeys_keys fuel h a rest M2 hrest]

theorem tag_of_loop_append_skip (fuel : Nat) (h : Heap ClassId Tag) (a : Addr)
    (e : ClassId) :
    ∀ (ks rest : List ClassId), (∀ o ∈ ks, ¬ o = e) →
      (∀ o ∈ ks, (Heap.getItem fuel h a o).isSome = true) →
      tag_of_loop fuel h a e (ks ++ rest) = tag_of_loop fuel h a e rest
  | [], rest, _, _ => rfl
  | o :: ks2, rest, hne, hsome => by
      have ho := hsome o (by simp)
      obtain ⟨v, hv⟩ : ∃ v, Heap.getItem fuel h a o = some v := by
        cases hg : Heap.getItem fuel h a o with
        | none => rw [hg] at ho; cases ho
        | some v => exact ⟨v, rfl⟩
      simp only [List.cons_append, tag_of_loop, hv]
      rw [if_neg (hne o (by simp))]
      exact tag_of_loop_append_skip fuel h a e ks2 rest
        (fun q hq => hne q (by simp [hq])) (fun q hq => hsome q (by simp [hq]))

/-! ### Computation lemmas for small literal heaps -/

theorem getItem_two {κ ν : Type} [DecidableEq κ] (es : List (κ × ν)) (own : List κ)
    (k : κ) :
    Heap.getItem 2 ⟨[.dict es, .nm own 0]⟩ 1 k =
      if k ∈ own then (es.find? (fun p => decide (p.1 = k))).map (fun p => p.2)
      else none := by
  by_cases hk : k ∈ own <;> simp [Heap.getItem, Heap.get, List.get?, hk]

theorem setItem_two {κ ν : Type} [DecidableEq κ] (es : List (κ × ν)) (own : List κ)
    (k : κ) (v : ν) (hfresh : es.any (fun p => decide (p.1 = k)) = false) :
    Heap.setItem 2 ⟨[.dict es, .nm own 0]⟩ 1 k v =
      (⟨[.dict (dictInsert es k v), .nm (setInsert own k) 0]⟩, true) := by
  simp [Heap.setItem, Heap.get, Heap.set, Heap.containsKey, List.get?, hfresh]

theorem setItem_three {κ ν : Type} [DecidableEq κ] (es : List (κ × ν))
    (own1 own2 : List κ) (k : κ) (v : ν)
    (hown1 : k ∉ own1) (hfresh : es.any (fun p => decide (p.1 = k)) = false) :
    Heap.setItem 3 ⟨[.dict es, .nm own1 0, .nm own2 1]⟩ 2 k v =
      (⟨[.dict (dictInsert es k v), .nm (setInsert own1 k) 0,
        .nm (setInsert own2 k) 1]⟩, true) := by
  simp [Heap.setItem, Heap.get, Heap.set, Heap.containsKey, List.get?, hown1, hfresh]

/-! ### A single-root registry world with arbitrary owned entries -/

/-- The registry state reached by declaring one root family f and then
registering the entries of es and cs one by one: the base dicts hold the
entries and the own sets of the root NarrowingMapping objects list exactly the
registered keys (the shape of the evaluation of init_subclass on that call
sequence). -/
def rootWorld (kw : String) (f : ClassId) (es : List (Tag × ClassId))
    (cs : List (ClassId × Tag)) : World :=
  ⟨⟨[.dict es, .nm (es.map (fun p => p.1)) 0]⟩,
   ⟨[.dict cs, .nm (cs.map (fun p => p.1)) 0]⟩,
   [(f, ⟨1, 1, kw⟩)]⟩

theorem find?_append_fresh {κ ν : Type} [DecidableEq κ] (es : List (κ × ν)) (t : κ)
    (v : ν) (hfresh : t ∉ es.map (fun p => p.1)) :
    (es ++ [(t, v)]).find? (fun p => decide (p.1 = t)) = some (t, v) := by
  rw [list_find?_append, find?_eq_none_of_not_mem es t hfresh]
  simp [List.find?]

theorem rootWorld_root (mro : ClassId → List ClassId) (kw : String) (f : ClassId)
    (es : List (Tag × ClassId)) (cs : List (ClassId × Tag)) (hmf : mro f = [f]) :
    get_parent_registry_root mro (rootWorld kw f es cs) f = some f := by
  simp [get_parent_registry_root, get_registry_root_list, World.inState,
    World.findState, rootWorld, hmf, List.find?]

theorem rootWorld_register (mro : ClassId → List ClassId) {kw : String}
    {f v : ClassId} {t : Tag} {es : List (Tag × ClassId)} {cs : List (ClassId × Tag)}
    (hmv : mro v = [v, f]) (hvf : ¬ v = f) (ht : ¬ t = "")
    (htfresh : t ∉ es.map (fun p => p.1)) (hvfresh : v ∉ cs.map (fun p => p.1)) :
    init_subclass mro kw (rootWorld kw f es cs) v false (some t) =
      (rootWorld kw f (es ++ [(t, v)]) (cs ++ [(v, t)]), none) := by
  have hfv : ¬ f = v := fun e => hvf e.symm
  have hroot : get_parent_registry_root mro (rootWorld kw f es cs) v = some f := by
    simp [get_parent_registry_root, get_registry_root_list, World.inState,
      World.findState, rootWorld, hmv, hfv, List.find?]
  have hany_t := any_eq_false_of_not_mem es t htfresh
  have hany_v := any_eq_false_of_not_mem cs v hvfresh
  have hset1 := setItem_two es (es.map (fun p => p.1)) t v hany_t
  have hset2 := setItem_two cs (cs.map (fun p => p.1)) v t hany_v
  have hins1 : dictInsert es t v = es ++ [(t, v)] := by
    simp [dictInsert, hany_t]
  have hins2 : dictInsert cs v t = cs ++ [(v, t)] := by
    simp [dictInsert, hany_v]
  have hsi1 : setInsert (es.map (fun p => p.1)) t = es.map (fun p => p.1) ++ [t] := by
    simp [setInsert, htfresh]
  have hsi2 : setInsert (cs.map (fun p => p.1)) v = cs.map (fun p => p.1) ++ [v] := by
    simp [setInsert, hvfresh]
  rw [hins1, hsi1] at hset1
  rw [hins2, hsi2] at hset2
  have hstate : (rootWorld kw f es cs).findState f = some ⟨1, 1, kw⟩ := by
    simp [rootWorld, World.findState, List.find?]
  simp only [init_subclass, hroot, hstate, Bool.false_eq_true, if_false]
  rw [if_neg ht]
  rw [show (rootWorld kw f es cs).tagHeap.objs.length = 2 from rfl,
    show (rootWorld kw f es cs).classHeap.objs.length = 2 from rfl,
    show (rootWorld kw f es cs).tagHeap =
      (⟨[.dict es, .nm (es.map (fun p => p.1)) 0]⟩ : Heap Tag ClassId) from rfl,
    show (rootWorld kw f es cs).classHeap =
      (⟨[.dict cs, .nm (cs.map (fun p => p.1)) 0]⟩ : Heap ClassId Tag) from rfl]
  rw [hset1, hset2]
  simp [rootWorld, List.map_append]

/-- C3: for every family F and every non-empty tag t not yet used in the
lineage of F, successfully declaring a variant type V with tag t and then
querying gives by_tag F t = V and tag_of F V = t. The family here is a root
family whose store already owns the arbitrary entries es and cs; V is a fresh
class and t a fresh non-empty tag. -/
theorem C3_declare_then_lookup_roundtrip (mro : ClassId → List ClassId)
    (kw : String) (f v : ClassId) (t : Tag) (es : List (Tag × ClassId))
    (cs : List (ClassId × Tag)) (hmf : mro f = [f]) (hmv : mro v = [v, f])
    (hvf : ¬ v = f) (ht : ¬ t = "") (htfresh : t ∉ es.map (fun p => p.1))
    (hvfresh : v ∉ cs.map (fun p => p.1)) :
    (init_subclass mro kw (rootWorld kw f es cs) v false (some t)).2 = none ∧
    by_tag mro (init_subclass mro kw (rootWorld kw f es cs) v false (some t)).1
      f t = .ok v ∧
    tag_of mro (init_subclass mro kw (rootWorld kw f es cs) v false (some t)).1
      f v = .ok (some t) := by
  rw [rootWorld_register mro hmv hvf ht htfresh hvfresh]
  have hstate : (rootWorld kw f (es ++ [(t, v)]) (cs ++ [(v, t)])).findState f =
      some ⟨1, 1, kw⟩ := by
    simp [rootWorld, World.findState, List.find?]
  refine ⟨rfl, ?_, ?_⟩
  · -- lookup of the fresh tag through the family root
    simp only [by_tag, get_tag_to_class_mapping,
      rootWorld_root mro kw f (es ++ [(t, v)]) (cs ++ [(v, t)]) hmf, hstate]
    rw [show (rootWorld kw f (es ++ [(t, v)]) (cs ++ [(v, t)])).tagHeap.objs.length = 2
        from rfl,
      show (rootWorld kw f (es ++ [(t, v)]) (cs ++ [(v, t)])).tagHeap =
        (⟨[.dict (es ++ [(t, v)]), .nm ((es ++ [(t, v)]).map (fun p => p.1)) 0]⟩ :
          Heap Tag ClassId) from rfl]
    obtain ⟨M, hM⟩ := readKeys_some 2
      (⟨[.dict (es ++ [(t, v)]), .nm ((es ++ [(t, v)]).map (fun p => p.1)) 0]⟩ :
        Heap Tag ClassId) 1
      ((es ++ [(t, v)]).map (fun p => p.1))
      (fun k hk => by
        rw [getItem_two (es ++ [(t, v)]) _ k, if_pos hk]
        simpa using find?_isSome_of_mem (es ++ [(t, v)]) k hk)
    have htm : Heap.toMapping 2
        (⟨[.dict (es ++ [(t, v)]), .nm ((es ++ [(t, v)]).map (fun p => p.1)) 0]⟩ :
          Heap Tag ClassId) 1 = some M := by
      rw [Heap.toMapping,
        show (⟨[.dict (es ++ [(t, v)]), .nm ((es ++ [(t, v)]).map (fun p => p.1)) 0]⟩ :
          Heap Tag ClassId).iterKeys 1 = (es ++ [(t, v)]).map (fun p => p.1) from rfl]
      exact hM
    rw [htm]
    have hfind := readKeys_find 2
      (⟨[.dict (es ++ [(t, v)]), .nm ((es ++ [(t, v)]).map (fun p => p.1)) 0]⟩ :
        Heap Tag ClassId) 1 t
      ((es ++ [(t, v)]).map (fun p => p.1)) M hM
    rw [if_pos (by simp)] at hfind
    rw [getItem_two (es ++ [(t, v)]) _ t, if_pos (by simp),
      find?_append_fresh es t v htfresh] at hfind
    simp at hfind
    simp [hfind, Except.bind]
  · -- reverse lookup of the fresh class
    simp only [tag_of,
      rootWorld_root mro kw f (es ++ [(t, v)]) (cs ++ [(v, t)]) hmf, hstate]
    rw [show (rootWorld kw f (es ++ [(t, v)]) (cs ++ [(v, t)])).classHeap.objs.length = 2
        from rfl,
      show (rootWorld kw f (es ++ [(t, v)]) (cs ++ [(v, t)])).classHeap =
        (⟨[.dict (cs ++ [(v, t)]), .nm ((cs ++ [(v, t)]).map (fun p => p.1)) 0]⟩ :
          Heap ClassId Tag) from rfl]
    rw [show (⟨[.dict (cs ++ [(v, t)]), .nm ((cs ++ [(v, t)]).map (fun p => p.1)) 0]⟩ :
        Heap ClassId Tag).iterKeys 1 = (cs ++ [(v, t)]).map (fun p => p.1) from rfl]
    rw [show (cs ++ [(v, t)]).map (fun p => p.1) = cs.map (fun p => p.1) ++ [v] from by
      simp]
    rw [tag_of_loop_append_skip 2 _ 1 v (cs.map (fun p => p.1)) [v]
      (fun o ho e => hvfresh (by rw [← e]; exact ho))
      (fun o ho => by
        rw [getItem_two (cs ++ [(v, t)]) _ o, if_pos (by simp [ho])]
        have hmem : o ∈ (cs ++ [(v, t)]).map (fun p => p.1) := by simp [ho]
        simpa using find?_isSome_of_mem (cs ++ [(v, t)]) o hmem)]
    have hget : Heap.getItem 2
        (⟨[.dict (cs ++ [(v, t)]), .nm (cs.map (fun p => p.1) ++ [v]) 0]⟩ :
          Heap ClassId Tag) 1 v = some t := by
      rw [getItem_two (cs ++ [(v, t)]) (cs.map (fun p => p.1) ++ [v]) v,
        if_pos (by simp), find?_append_fresh cs v t hvfresh]
      rfl
    simp [tag_of_loop, hget]

/-- Witness for C3 at a concrete instance: root family 0, fresh variant 1 with
tag a over the empty store. -/
theorem C3_roundtrip_witness :
    (init_subclass (fun c => if c = 1 then [1, 0] else [c]) "_type_tag"
      (rootWorld "_type_tag" 0 [] []) 1 false (some "a")).2 = none ∧
    by_tag (fun c => if c = 1 then [1, 0] else [c])
      (init_subclass (fun c => if c = 1 then [1, 0] else [c]) "_type_tag"
        (rootWorld "_type_tag" 0 [] []) 1 false (some "a")).1 0 "a" = .ok 1 ∧
    tag_of (fun c => if c = 1 then [1, 0] else [c])
      (init_subclass (fun c => if c = 1 then [1, 0] else [c]) "_type_tag"
        (rootWorld "_type_tag" 0 [] []) 1 false (some "a")).1 0 1 =
      .ok (some "a") :=
  C3_declare_then_lookup_roundtrip (fun c => if c = 1 then [1, 0] else [c])
    "_type_tag" 0 1 "a" [] [] rfl rfl (by decide) (by decide) (by simp) (by simp)

/-- C1: for a family f whose tag store chain already maps tag t to some class
vOld anywhere in the lineage (the entry sits in the base dict, where every
successful registration in the lineage lands), declaring a new variant class c
of a different type with tag t fails with the DuplicateTagError kind (the
KeyError of NarrowingMapping.__setitem__), and no (tag, class) association
becomes visible: every tag read through every store of the tag heap is
unchanged, the class_to_tag heap is untouched, and REGISTRY_STATE is
unchanged. -/
theorem C1_duplicate_tag_fails_no_new_entry (mro : ClassId → List ClassId)
    (kw : String) (w : World) (c f : ClassId) (rs : RState) (t : Tag)
    (path : List Addr) (es : List (Tag × ClassId)) (vOld : ClassId)
    (hroot : get_parent_registry_root mro w c = some f)
    (hstate : w.findState f = some rs)
    (hchain : ChainVia w.tagHeap rs.tagToClass (rs.tagToClass :: path) es)
    (hmapped : es.find? (fun p => decide (p.1 = t)) = some (t, vOld))
    (hdiff : ¬ c = vOld) (ht : ¬ t = "")
    (hfuel : path.length + 1 < w.tagHeap.objs.length) :
    (init_subclass mro kw w c false (some t)).2 = some RegErr.duplicateTag ∧
    (∀ m b k, Heap.getItem m (init_subclass mro kw w c false (some t)).1.tagHeap b k =
      Heap.getItem m w.tagHeap b k) ∧
    (init_subclass mro kw w c false (some t)).1.classHeap = w.classHeap ∧
    (init_subclass mro kw w c false (some t)).1.state = w.state := by
  have hany : es.any (fun p => decide (p.1 = t)) = true :=
    List.any_eq_true.mpr ⟨(t, vOld), List.mem_of_find?_eq_some hmapped, by simp⟩
  have hfail :
      (Heap.setItem w.tagHeap.objs.length w.tagHeap rs.tagToClass t c).2 = false :=
    setItem_fail_of_chain t c path w.tagHeap rs.tagToClass es
      w.tagHeap.objs.length hchain hany hfuel
  have hred : init_subclass mro kw w c false (some t) =
      (⟨(Heap.setItem w.tagHeap.objs.length w.tagHeap rs.tagToClass t c).1,
        w.classHeap, w.state⟩, some RegErr.duplicateTag) := by
    simp only [init_subclass, hroot, hstate, Bool.false_eq_true, if_false]
    rw [if_neg ht, if_pos hfail]
  rw [hred]
  refine ⟨rfl, ?_, rfl, rfl⟩
  intro m b k
  by_cases hk : k = t
  · rw [hk]
    exact setItem_fail_getItem t w.tagHeap.objs.length w.tagHeap rs.tagToClass c
      hfail m b
  · exact (getItem_congr k m w.tagHeap _
      (setItem_agree t k hk w.tagHeap.objs.length w.tagHeap rs.tagToClass c) b).symm

/-- Witness for C1 at a concrete instance: family 0 owns tag a mapped to class
1; declaring class 2 with tag a fails with the duplicate-tag error. -/
theorem C1_duplicate_tag_witness :
    (init_subclass (fun c => if c = 2 then [2, 0] else [c]) "_type_tag"
      (rootWorld "_type_tag" 0 [("a", 1)] [(1, "a")]) 2 false (some "a")).2 =
      some RegErr.duplicateTag :=
  (C1_duplicate_tag_fails_no_new_entry (fun c => if c = 2 then [2, 0] else [c])
    "_type_tag" (rootWorld "_type_tag" 0 [("a", 1)] [(1, "a")]) 2 0
    ⟨1, 1, "_type_tag"⟩ "a" [] [("a", 1)] 1
    rfl rfl
    (ChainVia.nm ["a"] 0 rfl (by decide) (ChainVia.dict rfl))
    rfl (by decide) (by decide) (by decide)).1

/-! ### Concrete scenario worlds built through init_subclass -/

/-- The empty initial state: no class declared, no store allocated. -/
def w0 : World := ⟨⟨[]⟩, ⟨[]⟩, []⟩

/-- Class hierarchy for the re-registration scenario: 0 is the root family and
1 its concrete variant. -/
def mroC2 : ClassId → List ClassId := fun c =>
  if c = 1 then [1, 0] else [c]

/-- Root family 0 with variant 1 registered under tag a. -/
def wC2 : World :=
  (init_subclass mroC2 "_type_tag"
    (init_subclass mroC2 "_type_tag" w0 0 true none).1 1 false (some "a")).1

/-- C2 evaluated at the failing input: tag a already maps to class 1 in the
store of family 0; re-registering the identical (a, 1) pair through
NarrowingMapping.__setitem__ of utils.py fails with the conflict KeyError
instead of succeeding as a no-op, while the legacy _NarrowingMapping of
typereg.py (whose source comments the same-value case as idempotent) accepts
it as a no-op that leaves the store unchanged, which is what the spec
describes. -/
theorem C2_same_pair_reregistration_raises :
    Heap.getItem 2 wC2.tagHeap 1 "a" = some 1 ∧
    Heap.setItem 2 wC2.tagHeap 1 "a" 1 = (wC2.tagHeap, false) ∧
    Heap.setItemLegacy 2 wC2.tagHeap 1 "a" 1 = (wC2.tagHeap, true) :=
  ⟨rfl, rfl, rfl⟩

/-- Class hierarchy for the three-level conflict scenario: root chain
0 then 1 then 2, variant 3 under 0, late variant 4 under 2. -/
def mroC6 : ClassId → List ClassId := fun c =>
  if c = 4 then [4, 2, 1, 0] else if c = 3 then [3, 0]
  else if c = 2 then [2, 1, 0] else if c = 1 then [1, 0] else [c]

/-- Three chained registry roots with tag t registered at the top root. -/
def wC6 : World :=
  (init_subclass mroC6 "_type_tag"
    (init_subclass mroC6 "_type_tag"
      (init_subclass mroC6 "_type_tag"
        (init_subclass mroC6 "_type_tag" w0 0 true none).1 1 true none).1
      2 true none).1 3 false (some "t")).1

/-- The failed registration of class 4 with the already-used tag t under the
third-level root 2. -/
def rC6 : World × Option RegErr :=
  init_subclass mroC6 "_type_tag" wC6 4 false (some "t")

/-- C6 evaluated at the failing input: the conflict for tag t is detected at
the grandparent level only after the own set of the third-level tag_to_class
NarrowingMapping has been mutated, so the failed registration leaves a
dangling owned key: the tag side owns t with no readable entry (dict() over it
raises, so tags on family 2 fails with a KeyError), while the class side owns
nothing, and the two owned maps are no longer mutual inverses. -/
theorem C6_failed_registration_dangling_owned_entry :
    rC6.2 = some RegErr.duplicateTag ∧
    rC6.1.tagHeap.get 3 = some (.nm ["t"] 2) ∧
    Heap.toMapping 4 rC6.1.tagHeap 3 = none ∧
    tags mroC6 rC6.1 2 = .error .keyError ∧
    rC6.1.classHeap.get 3 = some (.nm [] 2) :=
  ⟨rfl, rfl, rfl, rfl, rfl⟩

/-- C8 evaluated at the failing input: the first run of the tagged_dataclass
injection on a variant with tag v and no pre-existing field injects annotation
Literal[v] with default v; running the identical injection again then raises
(the re-declaration check demands annotation exactly str), even though the
existing default equals the tag, contradicting idempotent re-declaration. A
manually declared field with annotation str and default v does pass. -/
theorem C8_injection_not_idempotent :
    tagged_dataclass_tag_field ⟨.absent, none⟩ "v" =
      .ok ⟨.literalAnn "v", some "v"⟩ ∧
    tagged_dataclass_tag_field ⟨.literalAnn "v", some "v"⟩ "v" = .error () ∧
    tagged_dataclass_tag_field ⟨.strAnn, some "v"⟩ "v" = .ok ⟨.strAnn, some "v"⟩ := by
  refine ⟨rfl, ?_, ?_⟩
  · simp [tagged_dataclass_tag_field]
  · simp [tagged_dataclass_tag_field]

/-- C9 counterexample: for a class with no reachable registry root,
get_tag_kwarg silently returns the Python value None (ok none) instead of
failing with the typed not-in-registry error that the claim asserts for every
query function. -/
theorem C9_get_tag_kwarg_silent_default :
    get_tag_kwarg (fun c => [c]) w0 0 = .ok none := rfl

/-- C9 amended: for a class with no reachable registry root, the query
functions get_tag_to_class_mapping, tags, by_tag, tag_of and is_variant all
fail with the typed TypeError kind, but get_tag_kwarg returns None instead of
raising. -/
theorem C9_queries_error_without_family (mro : ClassId → List ClassId)
    (w : World) (c e : ClassId) (t : Tag)
    (hnone : get_parent_registry_root mro w c = none) :
    get_tag_to_class_mapping mro w c = .error .notInRegistry ∧
    tags mro w c = .error .notInRegistry ∧
    by_tag mro w c t = .error .notInRegistry ∧
    tag_of mro w c e = .error .notInRegistry ∧
    is_variant mro w c e = .error .notInRegistry ∧
    get_tag_kwarg mro w c = .ok none := by
  simp [get_tag_to_class_mapping, tags, by_tag, tag_of, is_variant,
    get_tag_kwarg, hnone, Except.map, Except.bind]

/-- Witness for C9 amended at a concrete instance: the empty world and an
unknown class. -/
theorem C9_queries_error_witness :
    get_tag_to_class_mapping (fun c => [c]) w0 5 = .error .notInRegistry ∧
    tags (fun c => [c]) w0 5 = .error .notInRegistry ∧
    by_tag (fun c => [c]) w0 5 "x" = .error .notInRegistry ∧
    tag_of (fun c => [c]) w0 5 5 = .error .notInRegistry ∧
    is_variant (fun c => [c]) w0 5 5 = .error .notInRegistry ∧
    get_tag_kwarg (fun c => [c]) w0 5 = .ok none :=
  C9_queries_error_without_family (fun c => [c]) w0 5 5 "x" rfl

/-- Class hierarchy for the union serializer scenario: class 1 is a subclass
of class 0, both registered. -/
def mro7 : ClassId → List ClassId := fun c => if c = 1 then [1, 0] else [c]

/-- C7 counterexample: the union serializer injects the tag of the first
isinstance match in the iteration order of the tag store (a CPython set,
whose order is unspecified). For a value of registered subclass 1 (tag b)
whose registered superclass 0 has tag s, the order that lists the superclass
first injects the superclass tag s, not the most-specific tag b; the other
order injects b. -/
theorem C7_injected_tag_depends_on_order :
    union_serializer mro7 [("s", 0), ("b", 1)] "_type_tag" 1
      [("content", .raw 7)] =
      [("content", .raw 7), ("_type_tag", .str "s")] ∧
    union_serializer mro7 [("b", 1), ("s", 0)] "_type_tag" 1
      [("content", .raw 7)] =
      [("content", .raw 7), ("_type_tag", .str "b")] :=
  ⟨rfl, rfl⟩

/-- C7 amended: the union serializer injects the tag of the first entry, in
store iteration order, whose class the value is an instance of; when no
registered class matches, the default serialization is returned unchanged
(pass-through), and when exactly one registered entry matches, its tag is
injected regardless of order. -/
theorem C7_first_match_or_passthrough (mro : ClassId → List ClassId)
    (m : List (Tag × ClassId)) (kw : String) (rc : ClassId)
    (serialized : List (String × SVal)) :
    ((∀ q ∈ m, isInstanceOf mro rc q.2 = false) →
      union_serializer mro m kw rc serialized = serialized) ∧
    (∀ t0 c0, (t0, c0) ∈ m → isInstanceOf mro rc c0 = true →
      (∀ q ∈ m, isInstanceOf mro rc q.2 = true → q = (t0, c0)) →
      union_serializer mro m kw rc serialized =
        dictInsert serialized kw (.str t0)) := by
  constructor
  · intro hall
    have hnone : m.find? (fun p => isInstanceOf mro rc p.2) = none :=
      List.find?_eq_none.mpr (fun q hq => by simp [hall q hq])
    rw [union_serializer, hnone]
  · intro t0 c0 hmem hinst huniq
    have hsome : m.find? (fun p => isInstanceOf mro rc p.2) = some (t0, c0) := by
      induction m with
      | nil => cases hmem
      | cons q rest ih =>
        by_cases hq : isInstanceOf mro rc q.2 = true
        · have hq2 : q = (t0, c0) := huniq q (by simp) hq
          rw [hq2] at hq ⊢
          simp [List.find?, hq]
        · have hq3 : ¬ q = (t0, c0) := by
            intro e
            rw [e] at hq
            exact hq hinst
          have hmem2 : (t0, c0) ∈ rest := by
            rcases (by simpa using hmem) with h | h
            · exact absurd h.symm hq3
            · exact h
          rw [show List.find? (fun p => isInstanceOf mro rc p.2) (q :: rest) =
              List.find? (fun p => isInstanceOf mro rc p.2) rest from by
            simp [List.find?, hq]]
          exact ih hmem2 (fun q2 hq2 => huniq q2 (by simp [hq2]))
    rw [union_serializer, hsome]

/-- Witness for C7 amended at a concrete instance with a single matching
entry. -/
theorem C7_first_match_witness :
    union_serializer (fun c => [c]) [("s", 0)] "k" 0 [] =
      dictInsert [] "k" (SVal.str "s") :=
  (C7_first_match_or_passthrough (fun c => [c]) [("s", 0)] "k" 0 []).2 "s" 0
    (by simp) rfl (fun q hq _ => by simpa using hq)

/-- Class hierarchy for the derived-family scenario: 0 is the root family,
1 a derived family declared under it, 2 a variant under 0, 3 a variant
under 1. -/
def mroD : ClassId → List ClassId := fun c =>
  if c = 3 then [3, 1, 0] else if c = 2 then [2, 0]
  else if c = 1 then [1, 0] else [c]

/-- Root family 0 and derived family 1 declared under it, before any variant
registration. -/
def derivedStart : World :=
  (init_subclass mroD "_type_tag"
    (init_subclass mroD "_type_tag" w0 0 true none).1 1 true none).1

theorem derived_build (t0 t : Tag) (h0 : ¬ t0 = "") (h1 : ¬ t = "")
    (hne : ¬ t = t0) :
    init_subclass mroD "_type_tag"
      (init_subclass mroD "_type_tag" derivedStart 2 false (some t0)).1
      3 false (some t) =
    (⟨⟨[.dict [(t0, 2), (t, 3)], .nm [t0, t] 0, .nm [t] 1]⟩,
      ⟨[.dict [(2, t0), (3, t)], .nm [2, 3] 0, .nm [3] 1]⟩,
      [(0, ⟨1, 1, "_type_tag"⟩), (1, ⟨2, 2, "_type_tag"⟩)]⟩, none) := by
  have ht0t : ¬ t0 = t := fun e => hne e.symm
  have step1 : init_subclass mroD "_type_tag" derivedStart 2 false (some t0) =
      (⟨⟨[.dict [(t0, 2)], .nm [t0] 0, .nm [] 1]⟩,
        ⟨[.dict [(2, t0)], .nm [2] 0, .nm [] 1]⟩,
        [(0, ⟨1, 1, "_type_tag"⟩), (1, ⟨2, 2, "_type_tag"⟩)]⟩, none) := by
    have hr : get_parent_registry_root mroD derivedStart 2 = some 0 := rfl
    have hs : derivedStart.findState 0 = some ⟨1, 1, "_type_tag"⟩ := rfl
    simp only [init_subclass, hr, hs, Bool.false_eq_true, if_false]
    rw [if_neg h0]
    rfl
  rw [step1]
  have hr3 : get_parent_registry_root mroD
      (⟨⟨[.dict [(t0, 2)], .nm [t0] 0, .nm [] 1]⟩,
        ⟨[.dict [(2, t0)], .nm [2] 0, .nm [] 1]⟩,
        [(0, ⟨1, 1, "_type_tag"⟩), (1, ⟨2, 2, "_type_tag"⟩)]⟩ : World) 3 =
      some 1 := rfl
  have hs3 : (⟨⟨[.dict [(t0, 2)], .nm [t0] 0, .nm [] 1]⟩,
      ⟨[.dict [(2, t0)], .nm [2] 0, .nm [] 1]⟩,
      [(0, ⟨1, 1, "_type_tag"⟩), (1, ⟨2, 2, "_type_tag"⟩)]⟩ : World).findState 1 =
      some ⟨2, 2, "_type_tag"⟩ := rfl
  simp only [init_subclass, hr3, hs3, Bool.false_eq_true, if_false]
  rw [if_neg h1]
  rw [show ([StoreObj.dict [(t0, 2)], StoreObj.nm [t0] 0,
      StoreObj.nm [] 1] : List (StoreObj Tag ClassId)).length = 3 from rfl]
  have hset : Heap.setItem 3
      (⟨[.dict [(t0, 2)], .nm [t0] 0, .nm [] 1]⟩ : Heap Tag ClassId) 2 t 3 =
      (⟨[.dict [(t0, 2), (t, 3)], .nm [t0, t] 0, .nm [t] 1]⟩, true) := by
    simp [Heap.setItem, Heap.get, Heap.set, Heap.containsKey, List.get?,
      setInsert, dictInsert, hne, ht0t]
  rw [hset]
  rfl

/-- C4: with ancestor family 0 owning tag t0 (variant 2) and derived family 1
declared under it, a variant 3 registered under the derived family with tag t
is visible from the ancestor: tags of the ancestor lists both t0 and t,
by_tag on the ancestor resolves t to the variant registered under the derived
family, and is_variant on the ancestor accepts it; but tags of the derived
family lists only its own tag t and not the ancestor-owned tag t0. Writes
propagate upward, owned-entry reads do not propagate downward. -/
theorem C4_hierarchical_visibility (t0 t : Tag) (h0 : ¬ t0 = "")
    (h1 : ¬ t = "") (hne : ¬ t = t0) :
    tags mroD (init_subclass mroD "_type_tag"
      (init_subclass mroD "_type_tag" derivedStart 2 false (some t0)).1
      3 false (some t)).1 0 = .ok [t0, t] ∧
    tags mroD (init_subclass mroD "_type_tag"
      (init_subclass mroD "_type_tag" derivedStart 2 false (some t0)).1
      3 false (some t)).1 1 = .ok [t] ∧
    by_tag mroD (init_subclass mroD "_type_tag"
      (init_subclass mroD "_type_tag" derivedStart 2 false (some t0)).1
      3 false (some t)).1 0 t = .ok 3 ∧
    is_variant mroD (init_subclass mroD "_type_tag"
      (init_subclass mroD "_type_tag" derivedStart 2 false (some t0)).1
      3 false (some t)).1 0 3 = .ok true := by
  have ht0t : ¬ t0 = t := fun e => hne e.symm
  rw [derived_build t0 t h0 h1 hne]
  refine ⟨?_, ?_, ?_, ?_⟩
  · simp [tags, get_tag_to_class_mapping, get_parent_registry_root,
      get_registry_root_list, World.inState, World.findState, mroD,
      Heap.toMapping, readKeys, Heap.getItem, Heap.iterKeys, Heap.get,
      List.get?, List.find?, hne, ht0t, Except.map]
  · simp [tags, get_tag_to_class_mapping, get_parent_registry_root,
      get_registry_root_list, World.inState, World.findState, mroD,
      Heap.toMapping, readKeys, Heap.getItem, Heap.iterKeys, Heap.get,
      List.get?, List.find?, hne, ht0t, Except.map]
  · simp [by_tag, get_tag_to_class_mapping, get_parent_registry_root,
      get_registry_root_list, World.inState, World.findState, mroD,
      Heap.toMapping, readKeys, Heap.getItem, Heap.iterKeys, Heap.get,
      List.get?, List.find?, hne, ht0t, Except.map, Except.bind]
  · simp [is_variant, get_tag_to_class_mapping, get_parent_registry_root,
      get_registry_root_list, World.inState, World.findState, mroD,
      Heap.toMapping, readKeys, Heap.getItem, Heap.iterKeys, Heap.get,
      List.get?, List.find?, hne, ht0t, Except.map]

/-- Witness for C4 at a concrete instance: tags x and y. -/
theorem C4_hierarchical_visibility_witness :
    tags mroD (init_subclass mroD "_type_tag"
      (init_subclass mroD "_type_tag" derivedStart 2 false (some "x")).1
      3 false (some "y")).1 0 = .ok ["x", "y"] ∧
    tags mroD (init_subclass mroD "_type_tag"
      (init_subclass mroD "_type_tag" derivedStart 2 false (some "x")).1
      3 false (some "y")).1 1 = .ok ["y"] ∧
    by_tag mroD (init_subclass mroD "_type_tag"
      (init_subclass mroD "_type_tag" derivedStart 2 false (some "x")).1
      3 false (some "y")).1 0 "y" = .ok 3 ∧
    is_variant mroD (init_subclass mroD "_type_tag"
      (init_subclass mroD "_type_tag" derivedStart 2 false (some "x")).1
      3 false (some "y")).1 0 3 = .ok true :=
  C4_hierarchical_visibility "x" "y" (by decide) (by decide) (by decide)

/-- C5 amended: resolution through by_tag is scoped to the queried level and
its descendants, not to its ancestors: for tag t0 registered directly under
the ancestor family 0, by_tag on the derived family 1 fails with a KeyError
instead of returning the class the ancestor registered, while by_tag on the
ancestor itself does return it. -/
theorem C5_ancestor_tag_not_resolvable_from_derived (t0 t : Tag)
    (h0 : ¬ t0 = "") (h1 : ¬ t = "") (hne : ¬ t = t0) :
    by_tag mroD (init_subclass mroD "_type_tag"
      (init_subclass mroD "_type_tag" derivedStart 2 false (some t0)).1
      3 false (some t)).1 1 t0 = .error .keyError ∧
    by_tag mroD (init_subclass mroD "_type_tag"
      (init_subclass mroD "_type_tag" derivedStart 2 false (some t0)).1
      3 false (some t)).1 0 t0 = .ok 2 := by
  have ht0t : ¬ t0 = t := fun e => hne e.symm
  rw [derived_build t0 t h0 h1 hne]
  refine ⟨?_, ?_⟩
  · simp [by_tag, get_tag_to_class_mapping, get_parent_registry_root,
      get_registry_root_list, World.inState, World.findState, mroD,
      Heap.toMapping, readKeys, Heap.getItem, Heap.iterKeys, Heap.get,
      List.get?, List.find?, hne, ht0t, Except.map, Except.bind]
  · simp [by_tag, get_tag_to_class_mapping, get_parent_registry_root,
      get_registry_root_list, World.inState, World.findState, mroD,
      Heap.toMapping, readKeys, Heap.getItem, Heap.iterKeys, Heap.get,
      List.get?, List.find?, hne, ht0t, Except.map, Except.bind]

/-- Witness for C5 amended at a concrete instance: tags x and y. -/
theorem C5_ancestor_tag_witness :
    by_tag mroD (init_subclass mroD "_type_tag"
      (init_subclass mroD "_type_tag" derivedStart 2 false (some "x")).1
      3 false (some "y")).1 1 "x" = .error .keyError ∧
    by_tag mroD (init_subclass mroD "_type_tag"
      (init_subclass mroD "_type_tag" derivedStart 2 false (some "x")).1
      3 false (some "y")).1 0 "x" = .ok 2 :=
  C5_ancestor_tag_not_resolvable_from_derived "x" "y" (by decide) (by decide)
    (by decide)

/-- The two-level world with tag x registered under the root family 0 and tag
y under the derived family 1. -/
def wD : World :=
  (init_subclass mroD "_type_tag"
    (init_subclass mroD "_type_tag" derivedStart 2 false (some "x")).1
    3 false (some "y")).1

/-- C5 counterexample: the claim says by_tag on the derived family resolves a
tag registered directly under the ancestor; in fact by_tag on derived family
1 for the ancestor-owned tag x raises the lookup KeyError, even though the
ancestor family resolves x to class 2. -/
theorem C5_by_tag_derived_counterexample :
    by_tag mroD wD 1 "x" = .error .keyError ∧
    by_tag mroD wD 0 "x" = .ok 2 :=
  ⟨rfl, rfl⟩

/-- C10: membership as reported by is_variant is by class identity against
the registered classes, not by subclass relation: for family f with
registered variant v (tag t) and a strict subclass c of v that was never
registered with a tag of its own, is_variant f c is False (while
is_variant f v is True), even though encoding an instance whose runtime class
is c through the family still injects the ancestor variant tag t. -/
theorem C10_is_variant_by_identity (mro : ClassId → List ClassId) (kw : String)
    (f v c : ClassId) (t : Tag) (fields : List (String × SVal))
    (hmf : mro f = [f]) (hmc : mro c = [c, v, f])
    (hcv : ¬ c = v) (hvf : ¬ v = f) :
    get_tag_to_class_mapping mro (rootWorld kw f [(t, v)] [(v, t)]) f =
      .ok [(t, v)] ∧
    is_variant mro (rootWorld kw f [(t, v)] [(v, t)]) f c = .ok false ∧
    is_variant mro (rootWorld kw f [(t, v)] [(v, t)]) f v = .ok true ∧
    union_serializer mro [(t, v)] kw c fields = dictInsert fields kw (.str t) := by
  have hvc : ¬ v = c := fun e => hcv e.symm
  have hstate : (rootWorld kw f [(t, v)] [(v, t)]).findState f =
      some ⟨1, 1, kw⟩ := by
    simp [rootWorld, World.findState, List.find?]
  have hmap : get_tag_to_class_mapping mro (rootWorld kw f [(t, v)] [(v, t)]) f =
      .ok [(t, v)] := by
    simp only [get_tag_to_class_mapping,
      rootWorld_root mro kw f [(t, v)] [(v, t)] hmf, hstate]
    rw [show (rootWorld kw f [(t, v)] [(v, t)]).tagHeap.objs.length = 2 from rfl,
      show (rootWorld kw f [(t, v)] [(v, t)]).tagHeap =
        (⟨[.dict [(t, v)], .nm [t] 0]⟩ : Heap Tag ClassId) from rfl]
    simp [Heap.toMapping, readKeys, Heap.getItem, Heap.iterKeys, Heap.get,
      List.get?, List.find?]
  refine ⟨hmap, ?_, ?_, ?_⟩
  · simp [is_variant, hmap, Except.map, hvc]
  · simp [is_variant, hmap, Except.map]
  · have hinst : isInstanceOf mro c v = true := by
      simp [isInstanceOf, hmc]
    simp [union_serializer, List.find?, hinst]

/-- Witness for C10 at a concrete instance: family 0, variant 1 with tag a,
unregistered strict subclass 2 of the variant. -/
theorem C10_is_variant_witness :
    get_tag_to_class_mapping
      (fun x => if x = 2 then [2, 1, 0] else if x = 1 then [1, 0] else [x])
      (rootWorld "_type_tag" 0 [("a", 1)] [(1, "a")]) 0 = .ok [("a", 1)] ∧
    is_variant
      (fun x => if x = 2 then [2, 1, 0] else if x = 1 then [1, 0] else [x])
      (rootWorld "_type_tag" 0 [("a", 1)] [(1, "a")]) 0 2 = .ok false ∧
    is_variant
      (fun x => if x = 2 then [2, 1, 0] else if x = 1 then [1, 0] else [x])
      (rootWorld "_type_tag" 0 [("a", 1)] [(1, "a")]) 0 1 = .ok true ∧
    union_serializer
      (fun x => if x = 2 then [2, 1, 0] else if x = 1 then [1, 0] else [x])
      [("a", 1)] "_type_tag" 2 [] = dictInsert [] "_type_tag" (.str "a") :=
  C10_is_variant_by_identity
    (fun x => if x = 2 then [2, 1, 0] else if x = 1 then [1, 0] else [x])
    "_type_tag" 0 1 2 "a" [] rfl rfl (by decide) (by decide)

end TypeReg
